import Mathlib

/-!
Shallow embedding of `talentenbank/bitwriter` (src/index.js), a sequential
binary-buffer writer for Node.js.  The writer owns a fixed-length byte
buffer, a cursor `_pos`, and an endianness; it exposes `write`, `writeInt`,
`writeString`, `writeRaw`, cursor operations and indexed byte access.

JavaScript objects are mutated in place and errors are thrown; here every
operation returns the writer state after the call (which may be mutated
even when an error is raised, exactly as in the JS) together with
`Option JsErr` describing the raised error, `none` on success.

Bytes are `Nat` values in `[0, 255]`; integers are Lean `Int` (JS numbers
restricted to the integral values the claims quantify over).
-/

set_option maxRecDepth 4000

namespace BitWriter

/-- Endianness of the writer, `'BE'` (default) or `'LE'` in the source. -/
inductive Endianness
  | BE
  | LE
deriving DecidableEq, Repr

/-- Modelled from the spec: `lib/errors.js` is not under `src/`; spec §7
lists the error kinds (RangeError, SizeError, DispatchError, OverflowError,
ArrayTypeError) produced by the error factory, which has "no logic beyond
value construction".  We model only the error kind; in addition the JS
runtime itself can raise a ReferenceError (the undefined variable `array`
at src/index.js:169), and Node's `Buffer` primitives raise their own
bounds / value assertion errors ("targetStart out of bounds",
"trying to write beyond buffer length", "value is out of bounds"). -/
inductive JsErr
  | range
  | size
  | dispatch
  | overflow
  | arrayType
  | reference
  | bufferBounds
  | valueOutOfBounds
deriving DecidableEq, Repr

/-- Modelled from the spec: `lib/range.js` is not under `src/`; spec §1
specifies "a numeric range check type: given inclusive bounds `[min, max]`,
exposes a membership test `contains(value) -> bool`". -/
structure Range where
  min : Int
  max : Int
deriving DecidableEq, Repr

/-- src/index.js:306 `function between(v, min, max) { return v >= min && v <= max }` -/
def between (v min max : Int) : Bool :=
  decide (v ≥ min) && decide (v ≤ max)

/-- Modelled from the spec: the `Range` membership test (`.test` in the
source) is inclusive-bounds membership, identical to `between` above. -/
def Range.test (r : Range) (v : Int) : Bool :=
  between v r.min r.max

/-- src/index.js:298-302 `BitWriter.UNSIGNED_RANGE` (note: its 8-bit entry is
`Range(-0x80, 0xff)`, so it admits negative values down to `-128`). -/
def UNSIGNED_RANGE8 : Range := ⟨-0x80, 0xff⟩

/-- src/index.js:298-302, 16-bit entry `Range(-0x8000, 0xffff)`. -/
def UNSIGNED_RANGE16 : Range := ⟨-0x8000, 0xffff⟩

/-- src/index.js:298-302, 32-bit entry `Range(-0x80000000, 0xffffffff)`. -/
def UNSIGNED_RANGE32 : Range := ⟨-0x80000000, 0xffffffff⟩

/-- src/index.js:303 `BitWriter.INT_SIZES = [8, 16, 32]`. -/
def INT_SIZES : List Int := [8, 16, 32]

/-- src/index.js:304 `BitWriter.NULL_BYTE = Buffer([0x00])`. -/
def NULL_BYTE : List Nat := [0x00]

/-- Writer state: `_buffer` (fixed-length byte list), `_pos` (cursor) and
`_endianness`, per `initialize` (src/index.js:12-27).  `this.length` is the
buffer length, which no operation changes. -/
structure Writer where
  buf : List Nat
  pos : Nat
  endianness : Endianness
deriving DecidableEq, Repr

/-- The options object passed to the write methods.  JS passes a single
object whose fields `size`, `null` and `safe` are read as needed; an absent
field is `none` (`safe` is compared with `=== true`, so it is a plain
`Bool` defaulting to `false`). -/
structure WriteOpts where
  size : Option Int := none
  null : Option Bool := none
  safe : Bool := false
deriving DecidableEq, Repr

/-- src/index.js:177-179 `remaining() { return this.length - this._pos }`.
JS subtraction can go negative (the safe raw path can push `_pos` past
`length`), so the result is an `Int`. -/
def remaining (w : Writer) : Int :=
  (w.buf.length : Int) - (w.pos : Int)

/-- src/index.js:208-210 `full() { return this.remaining() === 0 }`. -/
def full (w : Writer) : Bool :=
  remaining w == 0

/-- src/index.js:211-219 `position(p)` as a setter: range-checks
`0 <= p <= length`, then replaces the cursor.  The getter is `Writer.pos`. -/
def position (w : Writer) (p : Int) : Writer × Option JsErr :=
  if p > (w.buf.length : Int) || p < 0 then (w, some .range)
  else ({ w with pos := p.toNat }, none)

/-- src/index.js:225-228 `move(amount) { return this.position(this.position() + amount) }`. -/
def move (w : Writer) (amount : Int) : Writer × Option JsErr :=
  position w ((w.pos : Int) + amount)

/-- src/index.js:220-224 `reset()`: zero-fill the buffer, cursor to 0. -/
def reset (w : Writer) : Writer :=
  { w with buf := List.replicate w.buf.length 0, pos := 0 }

/-- Node `Buffer` byte store starting at index `i`; bytes that fall past the
end of the target are dropped, which is exactly Node 0.8's `copy` clamping
(`end = target.length - target_start + start`) and is what the per-byte
`List.set` no-op out of range gives us. -/
def writeBytesAt (buf : List Nat) (i : Nat) (src : List Nat) : List Nat :=
  match src with
  | [] => buf
  | b :: rest => writeBytesAt (buf.set i b) (i + 1) rest

/-- Big-endian byte image of a (two's-complement reduced) value `t` at the
given byte width; the table only ever uses widths 1, 2 and 4. -/
def encodeIntBE (width : Nat) (t : Nat) : List Nat :=
  match width with
  | 1 => [t % 256]
  | 2 => [t / 256 % 256, t % 256]
  | 4 => [t / 16777216 % 256, t / 65536 % 256, t / 256 % 256, t % 256]
  | _ => []

/-- Byte image of integer `v` at `width` bytes under endianness `e`:
Node's `writeUInt*`/`writeInt*` store the two's-complement image
(`writeInt*` writes `0xff.. + value + 1` for negative values), which is
`v mod 2^(8*width)` laid out most-significant-first (`BE`) or reversed (`LE`). -/
def encodeInt (e : Endianness) (width : Nat) (v : Int) : List Nat :=
  let t : Nat := (v % ((2 : Int) ^ (8 * width))).toNat
  match e with
  | .BE => encodeIntBE width t
  | .LE => (encodeIntBE width t).reverse

/-- One entry of the per-instance method table (src/index.js:237-265):
signedness, byte length and the inclusive test bounds produced by
`gentestInt`.  The bound pair doubles as Node's write-time value assertion
(`verifuint` / `verifsint`), which uses the same bounds. -/
structure MethodEntry where
  signed : Bool
  length : Nat
  min : Int
  max : Int
deriving DecidableEq, Repr

/-- The test `gentestInt(min, max)` applied to an entry (src/index.js:307). -/
def MethodEntry.test (m : MethodEntry) (v : Int) : Bool :=
  between v m.min m.max

/-- Table entry for `writeUInt8`: `gentestInt(0, 0xff)`. -/
def u8 : MethodEntry := ⟨false, 1, 0, 0xff⟩

/-- Table entry for `writeUInt16<E>`: `gentestInt(0, 0xffff)`. -/
def u16 : MethodEntry := ⟨false, 2, 0, 0xffff⟩

/-- Table entry for `writeUInt32<E>`: `gentestInt(0, 0xffffffff)`. -/
def u32 : MethodEntry := ⟨false, 4, 0, 0xffffffff⟩

/-- Table entry for `writeInt8`: `gentestInt(-0x80, 0x7f)`. -/
def i8 : MethodEntry := ⟨true, 1, -0x80, 0x7f⟩

/-- Table entry for `writeInt16<E>`: `gentestInt(-0x8000, 0x7fff)`. -/
def i16 : MethodEntry := ⟨true, 2, -0x8000, 0x7fff⟩

/-- Table entry for `writeInt32<E>`: `gentestInt(-0x80000000, 0x7fffffff)`. -/
def i32 : MethodEntry := ⟨true, 4, -0x80000000, 0x7fffffff⟩

/-- src/index.js:239-265 `this._methods`, in array order. -/
def methods : List MethodEntry := [u8, u16, u32, i8, i16, i32]

/-- src/index.js:266-277 `this._methods.bySize`: lookup by signedness and
width; any width other than 8/16/32 has no entry. -/
def bySize (unsigned : Bool) (s : Int) : Option MethodEntry :=
  if unsigned then
    if s = 8 then some u8 else if s = 16 then some u16
    else if s = 32 then some u32 else none
  else
    if s = 8 then some i8 else if s = 16 then some i16
    else if s = 32 then some i32 else none

/-- src/index.js:85-87: `this._methods.filter(function (m) { if (m.test(integer))
return m })[0]` — the first table entry (in array order u8, u16, u32, i8,
i16, i32) whose test accepts the value, `none` when no entry matches. -/
def autoSelect (v : Int) : Option MethodEntry :=
  (methods.filter (fun m => m.test v)).head?

/-- The `type` computed by `writeInt` (src/index.js:77-88): the `bySize`
lookup — unsigned iff `integer > 0` — when a non-zero `size` option is
present (JS truthiness: `opts && opts.size`), the priority-order scan
otherwise.  The size-validity error check of src/index.js:78-79 stays in
`writeInt`. -/
def intTypeOf (v : Int) (opts : WriteOpts) : Option MethodEntry :=
  match opts.size with
  | some s => if s ≠ 0 then bySize (decide (v > 0)) s else autoSelect v
  | none => autoSelect v

/-- The call `type.method.call(this._buffer, integer, position)` — the Node
`write(U)Int{8,16,32}{BE,LE}` primitive selected by the entry: assert the
offset fits (`offset + width <= length`, "trying to write beyond buffer
length"), assert the value is within the entry's bounds (`verifuint` /
`verifsint`), then store the byte image.  Assertion failures write nothing. -/
def methodWrite (e : Endianness) (t : MethodEntry) (v : Int) (buf : List Nat)
    (offset : Nat) : Except JsErr (List Nat) :=
  if offset + t.length > buf.length then .error .bufferBounds
  else if ¬ (t.min ≤ v ∧ v ≤ t.max) then .error .valueOutOfBounds
  else .ok (writeBytesAt buf offset (encodeInt e t.length v))

/-- src/index.js:90-99, the tail of `writeInt` after `type` is computed:
dispatch error if no type, overflow check against `remaining()`, the
encoder call, then `move(type.length)`. -/
def writeIntChecked (w : Writer) (v : Int) (type? : Option MethodEntry) :
    Writer × Option JsErr :=
  match type? with
  | none => (w, some .dispatch)
  | some t =>
    if (t.length : Int) > remaining w then (w, some .overflow)
    else
      match methodWrite w.endianness t v w.buf w.pos with
      | .error err => (w, some err)
      | .ok buf => move { w with buf := buf } (t.length : Int)

/-- src/index.js:69-100 `writeInt(integer, opts)`: 32-bit union range check
against `UNSIGNED_RANGE[32]`, size validation when a (truthy) `size` option
is given, then the checked encode. -/
def writeInt (w : Writer) (v : Int) (opts : WriteOpts) : Writer × Option JsErr :=
  if ¬ (UNSIGNED_RANGE32.test v) then (w, some .range)
  else
    match opts.size with
    | some s =>
      if s ≠ 0 then
        if ¬ (INT_SIZES.contains s) then (w, some .size)
        else writeIntChecked w v (bySize (decide (v > 0)) s)
      else writeIntChecked w v (autoSelect v)
    | none => writeIntChecked w v (autoSelect v)

/-- An element of a JS array passed to `writeRaw`: either a number or a
non-numeric value (whose `typeof` is not `'number'`). -/
inductive JsVal
  | num (n : Int)
  | nonNum
deriving DecidableEq, Repr

/-- src/index.js:230-234 `_copyBuffer(buf)`: `buf.copy(this, this.position())`
followed by `move(buf.length)`.  Node 0.8 `copy` returns 0 immediately when
source or target is empty, throws "targetStart out of bounds" when the
start position is at or past the end of the target, and otherwise clamps
the copy to the bytes that fit (partial copy, no error).  The `move` after
the copy range-checks the new cursor and can throw after a partial copy. -/
def copyBuffer (w : Writer) (b : List Nat) : Writer × Option JsErr :=
  if b.length = 0 ∨ w.buf.length = 0 then move w (b.length : Int)
  else if w.pos ≥ w.buf.length then (w, some .bufferBounds)
  else move { w with buf := writeBytesAt w.buf w.pos b } (b.length : Int)

/-- src/index.js:151-155, the `safe: true` loop of `writeRaw`:
`this._buffer.writeUInt8(arry[n], this._pos++)` for each element.  `_pos` is
incremented before the primitive runs, so the failing iteration still
advances the cursor; `writeUInt8` asserts the offset is inside the buffer
and the value is a number in `[0, 255]`, and writes nothing on failure. -/
def safeLoop (buf : List Nat) (pos : Nat) (elems : List JsVal) :
    List Nat × Nat × Option JsErr :=
  match elems with
  | [] => (buf, pos, none)
  | e :: rest =>
    match e with
    | .num n =>
      if pos ≥ buf.length then (buf, pos + 1, some .bufferBounds)
      else if n < 0 ∨ n > 255 then (buf, pos + 1, some .valueOutOfBounds)
      else safeLoop (buf.set pos n.toNat) (pos + 1) rest
    | .nonNum => (buf, pos + 1, some .valueOutOfBounds)

/-- src/index.js:161-167, the validation loop of the non-`safe` array path:
every element must be numeric (`typeof !== 'number'` → `errors.arrayType`)
and accepted by `UNSIGNED_RANGE[8]` (which is `Range(-0x80, 0xff)`,
→ `errors.range` otherwise).  Returns the first error, `none` if all pass. -/
def validateRaw (elems : List JsVal) : Option JsErr :=
  match elems with
  | [] => none
  | e :: rest =>
    match e with
    | .num n => if ¬ (UNSIGNED_RANGE8.test n) then some .range else validateRaw rest
    | .nonNum => some .arrayType

/-- The argument of `writeRaw`: a Node `Buffer` or a JS array. -/
inductive RawInput
  | buffer (b : List Nat)
  | array (l : List JsVal)
deriving DecidableEq, Repr

/-- src/index.js:145-170 `writeRaw(arry, opts)`: buffers go to `_copyBuffer`;
with `opts.safe === true` the unchecked loop runs; otherwise every element
is validated and then line 169 executes `return this.writeRaw(array,
{ safe: true })` — but the identifier `array` is not defined (the parameter
is named `arry`), so this statement raises a ReferenceError and the
validated write never happens. -/
def writeRaw (w : Writer) (a : RawInput) (opts : WriteOpts) : Writer × Option JsErr :=
  match a with
  | .buffer b => copyBuffer w b
  | .array l =>
    if opts.safe then
      let r := safeLoop w.buf w.pos l
      ({ w with buf := r.1, pos := r.2.1 }, r.2.2)
    else
      match validateRaw l with
      | some err => (w, some err)
      | none => (w, some .reference)

/-- src/index.js:102-105: `writeString` defaults the `null` option by
mutating the caller's options object — `if (!('null' in opts)) opts.null =
true`.  This is the state of the caller's `opts` after any `writeString`
call. -/
def stringOptsAfter (opts : WriteOpts) : WriteOpts :=
  if opts.null = none then { opts with null := some true } else opts

/-- Node 0.8 `buf.slice(0, end)`: a negative `end` counts from the end of
the buffer, and the result is clamped to `[0, length]`. -/
def bufSlice0 (b : List Nat) (e : Int) : List Nat :=
  b.take ((if e < 0 then e + (b.length : Int) else e).toNat.min b.length)

/-- src/index.js:124-133, the sizeless tail of `writeString`: overflow check
against `remaining()`, write the text bytes, then write `NULL_BYTE` iff
`opts.null !== false` and there is room left.  The inner writes go through
`this.write(buffer)` → `writeRaw` → `_copyBuffer`. -/
def writeStringTail (w : Writer) (s : List Nat) (opts : WriteOpts) :
    Writer × Option JsErr :=
  if (s.length : Int) > remaining w then (w, some .overflow)
  else
    match copyBuffer w s with
    | (w₁, some err) => (w₁, some err)
    | (w₁, none) =>
      if opts.null ≠ some false ∧ remaining w₁ > 0 then copyBuffer w₁ NULL_BYTE
      else (w₁, none)

/-- src/index.js:102-134 `writeString(string, opts)`: default the `null`
option (mutating `opts`), then — when a truthy `size` is given — write
exactly that many bytes by truncating (`buf.slice(0, size)`) or zero-padding
(`Buffer.concat([buf, nulls])`) and sending the result through
`this.write`; without a (truthy) size run the overflow-checked tail.
`string` is represented by its encoded byte list. -/
def writeString (w : Writer) (s : List Nat) (opts : WriteOpts) :
    Writer × Option JsErr :=
  match (stringOptsAfter opts).size with
  | some sz =>
    if sz ≠ 0 then
      if (s.length : Int) > sz then copyBuffer w (bufSlice0 s sz)
      else copyBuffer w (s ++ List.replicate (sz - (s.length : Int)).toNat 0)
    else writeStringTail w s (stringOptsAfter opts)
  | none => writeStringTail w s (stringOptsAfter opts)

/-- A value given to the generic `write`: JS dispatches on its runtime
shape — string, array, `Buffer`, else number (`writeInt`). -/
inductive JsData
  | str (s : List Nat)
  | array (l : List JsVal)
  | buffer (b : List Nat)
  | num (n : Int)
deriving DecidableEq, Repr

/-- src/index.js:47-53 `write(data)`: shape-based dispatch to
`writeString` / `writeRaw` / `writeInt`, forwarding the options. -/
def write (w : Writer) (d : JsData) (opts : WriteOpts) : Writer × Option JsErr :=
  match d with
  | .str s => writeString w s opts
  | .array l => writeRaw w (.array l) opts
  | .buffer b => writeRaw w (.buffer b) opts
  | .num n => writeInt w n opts

/-- Node 0.8 `Buffer.prototype.get(offset)` — the byte at the offset; the
array-like getter of src/index.js:286 just forwards to it. -/
def bufGet (w : Writer) (n : Nat) : Nat :=
  w.buf.getD n 0

/-- Node 0.8 `Buffer.prototype.set(offset, v)` — `this[offset] = v`, which
stores the value reduced modulo 256 into the byte store. -/
def bufSet (w : Writer) (n : Nat) (v : Int) : Writer :=
  { w with buf := w.buf.set n (v % 256).toNat }

/-- src/index.js:280-297 `_makeArrayLike`: the per-index property getter,
defined for every `n` in `[0, length)`; it reads the byte directly. -/
def indexGet (w : Writer) (n : Nat) : Nat :=
  bufGet w n

/-- src/index.js:280-297 `_makeArrayLike`: the per-index property setter,
defined for every `n` in `[0, length)`; it tests the value against
`UNSIGNED_RANGE[8]` (= `Range(-0x80, 0xff)`) and then stores it directly,
never touching the cursor. -/
def indexSet (w : Writer) (n : Nat) (v : Int) : Writer × Option JsErr :=
  if ¬ (UNSIGNED_RANGE8.test v) then (w, some .range)
  else (bufSet w n v, none)

/-- Spec-side selection (spec §4.3 step 3 and §8): scan in the fixed
priority order unsigned-8, unsigned-16, unsigned-32, signed-8, signed-16,
signed-32 and take the first entry whose valid range contains the value.
Written from the spec's words, to be compared with `autoSelect`. -/
def specPriority (v : Int) : Option MethodEntry :=
  if 0 ≤ v ∧ v ≤ 0xff then some u8
  else if 0 ≤ v ∧ v ≤ 0xffff then some u16
  else if 0 ≤ v ∧ v ≤ 0xffffffff then some u32
  else if -0x80 ≤ v ∧ v ≤ 0x7f then some i8
  else if -0x8000 ≤ v ∧ v ≤ 0x7fff then some i16
  else if -0x80000000 ≤ v ∧ v ≤ 0x7fffffff then some i32
  else none

theorem writeBytesAt_length (src : List Nat) : ∀ (buf : List Nat) (i : Nat),
    (writeBytesAt buf i src).length = buf.length := by
  induction src with
  | nil => intro buf i; rfl
  | cons b rest ih =>
    intro buf i
    rw [writeBytesAt, ih]
    simp

theorem writeBytesAt_getD (src : List Nat) : ∀ (buf : List Nat) (i j : Nat),
    (writeBytesAt buf i src).getD j 0 =
      if i ≤ j ∧ j < i + src.length ∧ j < buf.length then src.getD (j - i) 0
      else buf.getD j 0 := by
  induction src with
  | nil =>
    intro buf i j
    rw [writeBytesAt]
    split
    · next h => simp at h; omega
    · rfl
  | cons b rest ih =>
    intro buf i j
    rw [writeBytesAt, ih]
    simp only [List.length_set, List.length_cons]
    by_cases hij : i = j
    · subst hij
      rw [if_neg (by omega)]
      by_cases hlen : i < buf.length
      · rw [if_pos ⟨Nat.le_refl i, by omega, hlen⟩]
        simp [List.getD_eq_getElem?_getD, List.getElem?_set_self hlen]
      · rw [if_neg (by omega)]
        rw [List.set_eq_of_length_le (by omega)]
    · have hset : (buf.set i b).getD j 0 = buf.getD j 0 := by
        simp [List.getD_eq_getElem?_getD, List.getElem?_set_ne hij]
      by_cases hc : i + 1 ≤ j ∧ j < i + 1 + rest.length ∧ j < buf.length
      · rw [if_pos hc, if_pos (by omega)]
        have hd : j - i = (j - (i + 1)) + 1 := by omega
        rw [hd]
        rfl
      · rw [if_neg hc, hset, if_neg (by omega)]

theorem move_fits (w : Writer) (k : Nat) (h : w.pos + k ≤ w.buf.length) :
    move w (k : Int) = ({ w with pos := w.pos + k }, none) := by
  have h1 : ((w.pos : Int) + (k : Int) > (w.buf.length : Int) ||
      (w.pos : Int) + (k : Int) < 0) = false := by
    simp only [Bool.or_eq_false_iff, decide_eq_false_iff_not]
    omega
  simp only [move, position, h1, Bool.false_eq_true, if_false]
  have h2 : ((w.pos : Int) + (k : Int)).toNat = w.pos + k := by omega
  rw [h2]

theorem move_exceeds (w : Writer) (k : Nat) (h : w.buf.length < w.pos + k) :
    move w (k : Int) = (w, some .range) := by
  have h1 : ((w.pos : Int) + (k : Int) > (w.buf.length : Int) ||
      (w.pos : Int) + (k : Int) < 0) = true := by
    simp only [Bool.or_eq_true, decide_eq_true_eq]
    omega
  simp only [move, position, h1, if_true]

theorem copyBuffer_fits (w : Writer) (b : List Nat)
    (h : w.pos + b.length ≤ w.buf.length) :
    copyBuffer w b =
      ({ w with buf := writeBytesAt w.buf w.pos b, pos := w.pos + b.length }, none) := by
  rw [copyBuffer]
  by_cases hz : b.length = 0 ∨ w.buf.length = 0
  · have hb : b = [] := by
      rcases hz with hz | hz
      · exact List.eq_nil_of_length_eq_zero hz
      · have := b.length; exact List.eq_nil_of_length_eq_zero (by omega)
    subst hb
    rw [if_pos (by simp)]
    simpa [writeBytesAt] using move_fits w 0 (by omega)
  · rw [if_neg hz]
    push_neg at hz
    rw [if_neg (by omega)]
    have := move_fits { w with buf := writeBytesAt w.buf w.pos b } b.length
      (by simpa [writeBytesAt_length] using h)
    simpa using this

theorem copyBuffer_err_iff (w : Writer) (b : List Nat) :
    ((copyBuffer w b).2).isSome = true ↔ w.buf.length < w.pos + b.length := by
  constructor
  · intro herr
    by_contra hfit
    rw [copyBuffer_fits w b (by omega)] at herr
    simp at herr
  · intro hlt
    rw [copyBuffer]
    by_cases hz : b.length = 0 ∨ w.buf.length = 0
    · rw [if_pos hz]
      rw [move_exceeds w b.length hlt]
      rfl
    · rw [if_neg hz]
      push_neg at hz
      by_cases hp : w.pos ≥ w.buf.length
      · rw [if_pos hp]; rfl
      · rw [if_neg hp]
        rw [move_exceeds _ b.length (by simpa [writeBytesAt_length] using hlt)]
        rfl

theorem copyBuffer_fail_pos (w : Writer) (b : List Nat)
    (h : w.buf.length < w.pos + b.length) :
    (copyBuffer w b).1.pos = w.pos ∧ ((copyBuffer w b).2).isSome = true := by
  refine ⟨?_, (copyBuffer_err_iff w b).2 h⟩
  rw [copyBuffer]
  by_cases hz : b.length = 0 ∨ w.buf.length = 0
  · rw [if_pos hz, move_exceeds w b.length h]
  · rw [if_neg hz]
    push_neg at hz
    by_cases hp : w.pos ≥ w.buf.length
    · rw [if_pos hp]
    · rw [if_neg hp]
      rw [move_exceeds _ b.length (by simpa [writeBytesAt_length] using h)]

theorem safeLoop_ok (elems : List JsVal) : ∀ (buf : List Nat) (pos : Nat),
    (safeLoop buf pos elems).2.2 = none →
    (safeLoop buf pos elems).2.1 = pos + elems.length ∧
      (safeLoop buf pos elems).1.length = buf.length := by
  induction elems with
  | nil => intro buf pos _; simp [safeLoop]
  | cons e rest ih =>
    intro buf pos h
    match e with
    | .num n =>
      rw [safeLoop] at h ⊢
      by_cases hp : pos ≥ buf.length
      · rw [if_pos hp] at h; simp at h
      · rw [if_neg hp] at h ⊢
        by_cases hv : n < 0 ∨ n > 255
        · rw [if_pos hv] at h; simp at h
        · rw [if_neg hv] at h ⊢
          have := ih (buf.set pos n.toNat) (pos + 1) h
          simpa [Nat.add_assoc, Nat.add_comm 1 rest.length] using this
    | .nonNum => rw [safeLoop] at h; simp at h

theorem safeLoop_pos_bound (elems : List JsVal) : ∀ (buf : List Nat) (pos : Nat),
    pos ≤ buf.length →
    ((safeLoop buf pos elems).2.1 ≤ buf.length ∨
      (safeLoop buf pos elems).2.1 = buf.length + 1) ∧
    (safeLoop buf pos elems).1.length = buf.length := by
  induction elems with
  | nil => intro buf pos h; simp [safeLoop]; omega
  | cons e rest ih =>
    intro buf pos h
    match e with
    | .num n =>
      rw [safeLoop]
      by_cases hp : pos ≥ buf.length
      · rw [if_pos hp]
        refine ⟨Or.inr ?_, rfl⟩
        show pos + 1 = buf.length + 1
        omega
      · rw [if_neg hp]
        by_cases hv : n < 0 ∨ n > 255
        · rw [if_pos hv]
          refine ⟨Or.inl ?_, rfl⟩
          show pos + 1 ≤ buf.length
          omega
        · rw [if_neg hv]
          have := ih (buf.set pos n.toNat) (pos + 1) (by simpa using by omega)
          simpa using this
    | .nonNum =>
      rw [safeLoop]
      refine ⟨?_, rfl⟩
      by_cases hp : pos = buf.length
      · refine Or.inr ?_
        show pos + 1 = buf.length + 1
        omega
      · refine Or.inl ?_
        show pos + 1 ≤ buf.length
        omega

theorem intTypeOf_width (v : Int) (opts : WriteOpts) (t : MethodEntry)
    (h : intTypeOf v opts = some t) : t.length = 1 ∨ t.length = 2 ∨ t.length = 4 := by
  have hmem : ∀ u : MethodEntry, autoSelect v = some u →
      u.length = 1 ∨ u.length = 2 ∨ u.length = 4 := by
    intro u hu
    have : u ∈ methods.filter (fun m => m.test v) := by
      rw [autoSelect] at hu
      exact List.mem_of_mem_head? (by rw [hu]; rfl)
    have : u ∈ methods := List.mem_of_mem_filter this
    simp only [methods, List.mem_cons, List.not_mem_nil, or_false] at this
    rcases this with h | h | h | h | h | h <;> subst h <;> simp [u8, u16, u32, i8, i16, i32]
  rw [intTypeOf] at h
  match hs : opts.size with
  | none =>
    rw [hs] at h
    exact hmem t h
  | some s =>
    rw [hs] at h
    have h' : (if s ≠ 0 then bySize (decide (v > 0)) s else autoSelect v) = some t := h
    by_cases h0 : s = 0
    · rw [if_neg (by simp [h0])] at h'
      exact hmem t h'
    · rw [if_pos h0] at h'
      rw [bySize] at h'
      by_cases hu : decide (v > 0) = true <;>
        simp only [hu, Bool.false_eq_true, if_true, if_false] at h' <;>
        split_ifs at h' <;>
        (try injection h' with h'; subst h') <;>
        simp_all [u8, u16, u32, i8, i16, i32]

theorem writeBytesAt_append (a : List Nat) : ∀ (buf : List Nat) (i : Nat) (b : List Nat),
    writeBytesAt buf i (a ++ b) = writeBytesAt (writeBytesAt buf i a) (i + a.length) b := by
  induction a with
  | nil => intro buf i b; simp [writeBytesAt]
  | cons x rest ih =>
    intro buf i b
    rw [List.cons_append, writeBytesAt, writeBytesAt, ih]
    have : i + 1 + rest.length = i + (rest.length + 1) := by omega
    rw [this]
    rfl

theorem copyBuffer_buf_length (w : Writer) (b : List Nat) :
    (copyBuffer w b).1.buf.length = w.buf.length := by
  rw [copyBuffer]
  split
  · rw [move]
    rw [position]
    split <;> rfl
  · split
    · rfl
    · rw [move, position]
      split <;> simp [writeBytesAt_length]

theorem copyBuffer_ok_spec (w : Writer) (b : List Nat) (w' : Writer)
    (h : copyBuffer w b = (w', none)) :
    w.pos + b.length ≤ w.buf.length ∧
      w' = { w with buf := writeBytesAt w.buf w.pos b, pos := w.pos + b.length } := by
  by_cases hfit : w.pos + b.length ≤ w.buf.length
  · rw [copyBuffer_fits w b hfit] at h
    exact ⟨hfit, by injection h with h1 _; exact h1.symm⟩
  · exfalso
    have := (copyBuffer_err_iff w b).2 (by omega)
    rw [h] at this
    simp at this

theorem copyBuffer_pos_le (w : Writer) (b : List Nat) (hw : w.pos ≤ w.buf.length) :
    (copyBuffer w b).1.pos ≤ (copyBuffer w b).1.buf.length := by
  rw [copyBuffer_buf_length]
  by_cases hfit : w.pos + b.length ≤ w.buf.length
  · rw [copyBuffer_fits w b hfit]
    exact hfit
  · have := copyBuffer_fail_pos w b (by omega)
    omega

theorem writeIntChecked_fail_eq (w : Writer) (v : Int) (type? : Option MethodEntry)
    (h : ((writeIntChecked w v type?).2).isSome = true) :
    (writeIntChecked w v type?).1 = w := by
  match type? with
  | none => rfl
  | some t =>
    rw [writeIntChecked] at h ⊢
    by_cases hov : (t.length : Int) > remaining w
    · rw [if_pos hov]
    · rw [if_neg hov] at h ⊢
      match hmw : methodWrite w.endianness t v w.buf w.pos with
      | .error err => rfl
      | .ok buf =>
        exfalso
        rw [hmw] at h
        have h' : ((move { w with buf := buf } (t.length : Int)).2).isSome = true := h
        have hfit : w.pos + t.length ≤ w.buf.length := by
          rw [remaining] at hov
          omega
        have hbuf : buf.length = w.buf.length := by
          rw [methodWrite] at hmw
          rw [if_neg (by omega)] at hmw
          split at hmw
          · simp at hmw
          · injection hmw with hmw
            rw [← hmw, writeBytesAt_length]
        have hm : move { w with buf := buf } (t.length : Int) =
            ({ w with buf := buf, pos := w.pos + t.length }, none) := by
          have := move_fits { w with buf := buf } t.length (by simpa [hbuf] using hfit)
          simpa using this
        rw [hm] at h'
        simp at h'

theorem writeIntChecked_ok_spec (w : Writer) (v : Int) (type? : Option MethodEntry)
    (w' : Writer) (h : writeIntChecked w v type? = (w', none)) :
    ∃ t, type? = some t ∧ (t.length : Int) ≤ remaining w ∧ t.min ≤ v ∧ v ≤ t.max ∧
      w' = { w with buf := writeBytesAt w.buf w.pos (encodeInt w.endianness t.length v),
                    pos := w.pos + t.length } := by
  match type? with
  | none => exact absurd h (by rw [writeIntChecked]; simp)
  | some t =>
    refine ⟨t, rfl, ?_⟩
    rw [writeIntChecked] at h
    by_cases hov : (t.length : Int) > remaining w
    · rw [if_pos hov] at h
      simp at h
    · rw [if_neg hov] at h
      have hfit : w.pos + t.length ≤ w.buf.length := by
        rw [remaining] at hov
        omega
      match hmw : methodWrite w.endianness t v w.buf w.pos with
      | .error err =>
        rw [hmw] at h
        have h' : ((w, some err) : Writer × Option JsErr) = (w', none) := h
        simp at h'
      | .ok buf =>
        rw [hmw] at h
        have h' : move { w with buf := buf } (t.length : Int) = (w', none) := h
        rw [methodWrite, if_neg (by omega)] at hmw
        split at hmw
        · simp at hmw
        · next hval =>
          injection hmw with hmw
          push_neg at hval
          refine ⟨by omega, hval.1, hval.2, ?_⟩
          have hbuf : buf.length = w.buf.length := by
            rw [← hmw, writeBytesAt_length]
          have hm : move { w with buf := buf } (t.length : Int) =
              ({ w with buf := buf, pos := w.pos + t.length }, none) := by
            have := move_fits { w with buf := buf } t.length (by simpa [hbuf] using hfit)
            simpa using this
          rw [hm] at h'
          injection h' with h1 _
          rw [← h1, ← hmw]

theorem writeInt_shape (w : Writer) (v : Int) (opts : WriteOpts) :
    writeInt w v opts = (w, some .range) ∨
    writeInt w v opts = (w, some .size) ∨
    writeInt w v opts = writeIntChecked w v (intTypeOf v opts) := by
  by_cases hr : ¬ (UNSIGNED_RANGE32.test v)
  · left
    rw [writeInt, if_pos hr]
  · cases hs : opts.size with
    | none =>
      right; right
      rw [writeInt, if_neg hr, intTypeOf, hs]
    | some s =>
      by_cases h0 : s = 0
      · right; right
        subst h0
        rw [writeInt, if_neg hr, intTypeOf, hs]
        have h00 : ¬ ((0 : Int) ≠ 0) := by simp
        show (if (0 : Int) ≠ 0 then _ else _) =
          writeIntChecked w v (if (0 : Int) ≠ 0 then _ else _)
        rw [if_neg h00, if_neg h00]
      · by_cases hc : ¬ INT_SIZES.contains s
        · right; left
          rw [writeInt, if_neg hr, hs]
          show (if s ≠ 0 then _ else _) = _
          rw [if_pos h0, if_pos hc]
        · right; right
          rw [writeInt, if_neg hr, intTypeOf, hs]
          show (if s ≠ 0 then _ else _) =
            writeIntChecked w v (if s ≠ 0 then _ else _)
          rw [if_pos h0, if_pos h0, if_neg hc]

theorem writeInt_fail_eq (w : Writer) (v : Int) (opts : WriteOpts)
    (h : ((writeInt w v opts).2).isSome = true) :
    (writeInt w v opts).1 = w := by
  rcases writeInt_shape w v opts with hsh | hsh | hsh
  · rw [hsh]
  · rw [hsh]
  · rw [hsh] at h ⊢
    exact writeIntChecked_fail_eq w v _ h

theorem writeInt_ok_spec (w : Writer) (v : Int) (opts : WriteOpts) (w' : Writer)
    (h : writeInt w v opts = (w', none)) :
    ∃ t, intTypeOf v opts = some t ∧ (t.length : Int) ≤ remaining w ∧
      w' = { w with buf := writeBytesAt w.buf w.pos (encodeInt w.endianness t.length v),
                    pos := w.pos + t.length } := by
  rcases writeInt_shape w v opts with hsh | hsh | hsh
  · rw [hsh] at h
    simp at h
  · rw [hsh] at h
    simp at h
  · rw [hsh] at h
    obtain ⟨t, ht, hlen, _, _, hw'⟩ := writeIntChecked_ok_spec w v _ w' h
    exact ⟨t, ht, hlen, hw'⟩

theorem stringOptsAfter_size (opts : WriteOpts) :
    (stringOptsAfter opts).size = opts.size := by
  rw [stringOptsAfter]
  split <;> rfl

theorem stringOptsAfter_null_ne (opts : WriteOpts) :
    ((stringOptsAfter opts).null ≠ some false) ↔ (opts.null ≠ some false) := by
  rw [stringOptsAfter]
  split
  · next h => simp [h]
  · exact Iff.rfl

theorem writeStringTail_overflow (w : Writer) (s : List Nat) (opts : WriteOpts)
    (h : remaining w < (s.length : Int)) :
    writeStringTail w s opts = (w, some .overflow) := by
  rw [writeStringTail, if_pos h]

theorem writeStringTail_ok (w : Writer) (s : List Nat) (opts : WriteOpts)
    (h : (s.length : Int) ≤ remaining w) :
    writeStringTail w s opts =
      if opts.null ≠ some false ∧ (s.length : Int) < remaining w then
        ({ w with buf := writeBytesAt w.buf w.pos (s ++ NULL_BYTE),
                  pos := w.pos + s.length + 1 }, none)
      else
        ({ w with buf := writeBytesAt w.buf w.pos s,
                  pos := w.pos + s.length }, none) := by
  have hfit : w.pos + s.length ≤ w.buf.length := by
    rw [remaining] at h
    omega
  rw [writeStringTail, if_neg (not_lt.mpr h)]
  rw [copyBuffer_fits w s hfit]
  have hrem : remaining { w with buf := writeBytesAt w.buf w.pos s, pos := w.pos + s.length } = remaining w - (s.length : Int) := by
    rw [remaining, remaining]
    rw [writeBytesAt_length]
    push_cast
    ring
  show (if opts.null ≠ some false ∧ remaining { w with buf := writeBytesAt w.buf w.pos s, pos := w.pos + s.length } > 0 then copyBuffer { w with buf := writeBytesAt w.buf w.pos s, pos := w.pos + s.length } NULL_BYTE else ({ w with buf := writeBytesAt w.buf w.pos s, pos := w.pos + s.length }, none)) = _
  by_cases hc : opts.null ≠ some false ∧ (s.length : Int) < remaining w
  · rw [if_pos (show _ ∧ _ from ⟨hc.1, by rw [hrem]; have := hc.2; omega⟩)]
    rw [if_pos hc]
    have hfit1 : (w.pos + s.length) + NULL_BYTE.length ≤
        (writeBytesAt w.buf w.pos s).length := by
      rw [writeBytesAt_length]
      have h2 := hc.2
      rw [remaining] at h2
      simp only [NULL_BYTE, List.length_cons, List.length_nil]
      omega
    rw [copyBuffer_fits _ NULL_BYTE hfit1]
    rw [writeBytesAt_append]
    simp [NULL_BYTE]
  · rw [if_neg (show ¬ (_ ∧ _) from fun hcc => by
      rw [hrem] at hcc
      exact hc ⟨hcc.1, by have := hcc.2; omega⟩)]
    rw [if_neg hc]

theorem writeString_unsized (w : Writer) (s : List Nat) (opts : WriteOpts)
    (h : opts.size = none) :
    writeString w s opts = writeStringTail w s (stringOptsAfter opts) := by
  rw [writeString, stringOptsAfter_size, h]

theorem writeString_sized (w : Writer) (s : List Nat) (opts : WriteOpts) (sz : Int)
    (h : opts.size = some sz) (h0 : sz ≠ 0) :
    writeString w s opts =
      if (s.length : Int) > sz then copyBuffer w (bufSlice0 s sz)
      else copyBuffer w (s ++ List.replicate (sz - (s.length : Int)).toNat 0) := by
  rw [writeString, stringOptsAfter_size, h]
  show (if sz ≠ 0 then _ else _) = _
  rw [if_pos h0]

theorem writeRaw_buffer (w : Writer) (b : List Nat) (opts : WriteOpts) :
    writeRaw w (.buffer b) opts = copyBuffer w b :=
  rfl

theorem writeRaw_array_safe (w : Writer) (l : List JsVal) (opts : WriteOpts)
    (hs : opts.safe = true) :
    writeRaw w (.array l) opts =
      ({ w with buf := (safeLoop w.buf w.pos l).1, pos := (safeLoop w.buf w.pos l).2.1 },
        (safeLoop w.buf w.pos l).2.2) := by
  simp only [writeRaw, hs, if_true]

theorem writeRaw_array_checked (w : Writer) (l : List JsVal) (opts : WriteOpts)
    (hs : opts.safe = false) :
    writeRaw w (.array l) opts = (w, some ((validateRaw l).getD .reference)) := by
  simp only [writeRaw, hs, Bool.false_eq_true, if_false]
  cases hv : validateRaw l <;> simp [hv]

theorem autoSelect_total (v : Int) (h1 : -0x80000000 ≤ v) (h2 : v ≤ 0xffffffff) :
    ∃ t, autoSelect v = some t ∧ 1 ≤ t.length := by
  rw [autoSelect, methods]
  simp only [List.filter_cons, List.filter_nil, MethodEntry.test, between,
    u8, u16, u32, i8, i16, i32, Bool.and_eq_true, decide_eq_true_eq, ge_iff_le]
  split_ifs <;> first | (exact ⟨_, rfl, by decide⟩) | (exfalso; omega)

theorem safeLoop_pos_le_add (elems : List JsVal) : ∀ (buf : List Nat) (pos : Nat),
    (safeLoop buf pos elems).2.1 ≤ pos + elems.length := by
  induction elems with
  | nil => intro buf pos; simp [safeLoop]
  | cons e rest ih =>
    intro buf pos
    simp only [List.length_cons]
    match e with
    | .num n =>
      rw [safeLoop]
      by_cases hp : pos ≥ buf.length
      · rw [if_pos hp]
        show pos + 1 ≤ pos + (rest.length + 1)
        omega
      · rw [if_neg hp]
        by_cases hv : n < 0 ∨ n > 255
        · rw [if_pos hv]
          show pos + 1 ≤ pos + (rest.length + 1)
          omega
        · rw [if_neg hv]
          exact (ih (buf.set pos n.toNat) (pos + 1)).trans (by omega)
    | .nonNum =>
      rw [safeLoop]
      show pos + 1 ≤ pos + (rest.length + 1)
      omega

/-- Claim C10: `writeString(s, opts)` with an options object that has no
`null` key mutates the caller's object itself, setting `opts.null = true`
(src/index.js:104-105), so the caller-supplied options object is not left
unchanged. -/
theorem C10_opts_mutated (opts : WriteOpts) (h : opts.null = none) :
    (stringOptsAfter opts).null = some true ∧ stringOptsAfter opts ≠ opts := by
  rw [stringOptsAfter, if_pos h]
  refine ⟨rfl, fun hc => ?_⟩
  have := congrArg WriteOpts.null hc
  simp [h] at this

/-- Witness for C10 at the empty options object. -/
theorem C10_opts_mutated_witness :
    (stringOptsAfter {}).null = some true ∧ stringOptsAfter {} ≠ ({} : WriteOpts) :=
  C10_opts_mutated {} rfl

/-- Claim C8 counterexample: the indexed setter accepts `-5`, which is
outside `[0, 255]` — the claim requires a RangeError here — because the
check uses `UNSIGNED_RANGE[8] = Range(-0x80, 0xff)`; the byte stored is
`-5 mod 256 = 251`. -/
theorem C8_counterexample :
    (indexSet ⟨[0, 0], 0, .BE⟩ 0 (-5)).2 = none ∧
      (indexSet ⟨[0, 0], 0, .BE⟩ 0 (-5)).1.buf = [251, 0] ∧
      ¬ (0 ≤ (-5 : Int)) := by
  decide

/-- Claim C8 (amended): for every valid offset `n < length`, indexed get
returns the byte at `n`; indexed set fails with a RangeError unless the
value is within `[-128, 255]` (the code's `UNSIGNED_RANGE[8]` bounds, not
`[0, 255]`), and otherwise stores the value reduced modulo 256 directly at
`n`, without consulting or moving the cursor and without any overflow
check. -/
theorem C8_indexed_access (w : Writer) (n : Nat) (v : Int) (_hn : n < w.buf.length) :
    indexGet w n = w.buf.getD n 0 ∧
    ((v < -128 ∨ 255 < v) → indexSet w n v = (w, some .range)) ∧
    ((-128 ≤ v ∧ v ≤ 255) →
      indexSet w n v = ({ w with buf := w.buf.set n (v % 256).toNat }, none) ∧
        (indexSet w n v).1.pos = w.pos) := by
  refine ⟨rfl, fun hout => ?_, fun hin => ?_⟩
  · rw [indexSet, if_pos ?_]
    simp only [UNSIGNED_RANGE8, Range.test, between]
    simp only [Bool.and_eq_true, decide_eq_true_eq, ge_iff_le, not_and]
    intro h1
    omega
  · have hT : UNSIGNED_RANGE8.test v = true := by
      simp only [UNSIGNED_RANGE8, Range.test, between, Bool.and_eq_true,
        decide_eq_true_eq, ge_iff_le]
      omega
    rw [indexSet, if_neg (by simp [hT])]
    exact ⟨rfl, rfl⟩

/-- Witness for C8 at offset 0 of a length-2 writer with value 300. -/
theorem C8_indexed_access_witness :
    indexGet ⟨[0, 0], 0, .BE⟩ 0 = ([0, 0] : List Nat).getD 0 0 ∧
    (((300 : Int) < -128 ∨ 255 < (300 : Int)) →
      indexSet ⟨[0, 0], 0, .BE⟩ 0 300 = (⟨[0, 0], 0, .BE⟩, some .range)) ∧
    (((-128 : Int) ≤ 300 ∧ (300 : Int) ≤ 255) →
      indexSet ⟨[0, 0], 0, .BE⟩ 0 300 =
        (⟨([0, 0] : List Nat).set 0 ((300 : Int) % 256).toNat, 0, .BE⟩, none) ∧
        (indexSet ⟨[0, 0], 0, .BE⟩ 0 300).1.pos = 0) :=
  C8_indexed_access ⟨[0, 0], 0, .BE⟩ 0 300 (by decide)

/-- Claim C5 (code bug at src/index.js:169): a list that passes validation
is never written — the statement `return this.writeRaw(array, {safe: true})`
references the undefined identifier `array` (the parameter is named `arry`),
so it raises a ReferenceError, leaving buffer and cursor untouched.  The
spec's example `writeRaw([1,2,300])` does raise the range error with the
buffer unmodified, but `writeRaw([1,2,3])` raises ReferenceError instead of
writing the bytes. -/
theorem C5_writeRaw_reference_bug :
    writeRaw ⟨[0, 0, 0, 0], 0, .BE⟩ (.array [.num 1, .num 2, .num 3]) {} =
      (⟨[0, 0, 0, 0], 0, .BE⟩, some .reference) ∧
    writeRaw ⟨[0, 0, 0, 0], 0, .BE⟩ (.array [.num 1, .num 2, .num 300]) {} =
      (⟨[0, 0, 0, 0], 0, .BE⟩, some .range) := by
  decide

/-- Claim C2 counterexample: on a length-2 writer, `writeRaw` of the 3-byte
buffer `[10, 20, 30]` fails (RangeError from the cursor `move`) but the
Node `copy` primitive has already clamped-copied the first two bytes: the
buffer after the failed call is `[10, 20]`, not the original `[0, 0]`. -/
theorem C2_counterexample :
    writeRaw ⟨[0, 0], 0, .BE⟩ (.buffer [10, 20, 30]) {} =
      (⟨[10, 20], 0, .BE⟩, some .range) ∧
    ([10, 20] : List Nat) ≠ [0, 0] := by
  decide

/-- Claim C4 counterexample: on a full writer (length 1, cursor 1), writing
a non-empty byte buffer fails with the Node `copy` bounds error
("targetStart out of bounds"), not with an OverflowError; and a safe-mode
list write on the same full writer moves the cursor to 2 before failing. -/
theorem C4_counterexample :
    ((writeRaw ⟨[9], 1, .BE⟩ (.buffer [7]) {}).2 = some .bufferBounds ∧
      some JsErr.bufferBounds ≠ some JsErr.overflow) ∧
    (writeRaw ⟨[9], 1, .BE⟩ (.array [.num 7]) { safe := true }).1.pos = 2 := by
  decide

/-- Claim C9 counterexample: `writeRaw` with `safe: true` of a 3-element
list on a length-2 writer leaves the cursor at 3, violating
`cursor <= length`. -/
theorem C9_counterexample :
    (writeRaw ⟨[0, 0], 0, .BE⟩ (.array [.num 1, .num 2, .num 3])
        { safe := true }).1.pos = 3 ∧
    ¬ ((3 : Nat) ≤ ([0, 0] : List Nat).length) := by
  decide

/-- Claim C6 counterexample: `{size: 0}` is falsy, so the size path is
skipped — `writeString("hi", {size: 0})` on a length-5 writer writes the
two text bytes plus a null terminator (3 bytes, cursor 3), not exactly 0
bytes; and `{size: 3}` on a length-2 writer writes only the 2 bytes that
fit and then raises a RangeError, not exactly 3 bytes. -/
theorem C6_counterexample :
    writeString ⟨[0, 0, 0, 0, 0], 0, .BE⟩ [104, 105] { size := some 0 } =
      (⟨[104, 105, 0, 0, 0], 3, .BE⟩, none) ∧
    writeString ⟨[0, 0], 0, .BE⟩ [97, 98, 99, 100] { size := some 3 } =
      (⟨[97, 98], 0, .BE⟩, some .range) := by
  decide

/-- Claim C3 counterexample: `writeInt(0, {size: 8})` selects the signed
8-bit entry (the code tests `integer > 0`, not `>= 0`), and
`writeInt(5, {size: 0})` does not fail with a size error — the falsy size
is treated as absent and the write succeeds via auto-selection. -/
theorem C3_counterexample :
    (intTypeOf 0 { size := some 8 }).map MethodEntry.signed = some true ∧
    (writeInt ⟨[0, 0, 0, 0], 0, .BE⟩ 5 { size := some 0 }).2 = none := by
  decide

/-- Claim C1: for every integer `v` in `[-2^31, 2^31)` written with no
explicit size, the selected encoding is the first entry of the fixed
priority order u8, u16, u32, i8, i16, i32 whose valid range contains `v`
(`specPriority`, written from the spec's words); `writeInt` without a size
option dispatches on exactly that entry; and on a fresh length-4 big-endian
writer, `write(300)` selects u16 and leaves the buffer bytes
`[0x01, 0x2C, 0x00, 0x00]` with cursor 2. -/
theorem C1_auto_selection (v : Int) (h1 : -2 ^ 31 ≤ v) (h2 : v < 2 ^ 31) :
    autoSelect v = specPriority v ∧
    (specPriority v).isSome = true ∧
    (∀ w : Writer, writeInt w v {} = writeIntChecked w v (specPriority v)) ∧
    write ⟨List.replicate 4 0, 0, .BE⟩ (.num 300) {} =
      (⟨[0x01, 0x2C, 0x00, 0x00], 2, .BE⟩, none) := by
  have hsel : autoSelect v = specPriority v := by
    rw [autoSelect, specPriority, methods]
    simp only [List.filter_cons, List.filter_nil, MethodEntry.test, between,
      u8, u16, u32, i8, i16, i32, Bool.and_eq_true, decide_eq_true_eq, ge_iff_le]
    split_ifs <;> rfl
  have hiss : (specPriority v).isSome = true := by
    rw [specPriority]
    split_ifs <;> first | rfl | (exfalso; omega)
  refine ⟨hsel, hiss, fun w => ?_, by decide⟩
  rw [writeInt]
  have hrange : UNSIGNED_RANGE32.test v = true := by
    simp only [UNSIGNED_RANGE32, Range.test, between, Bool.and_eq_true,
      decide_eq_true_eq, ge_iff_le]
    constructor <;> omega
  rw [if_neg (by simp [hrange])]
  show writeIntChecked w v (autoSelect v) = writeIntChecked w v (specPriority v)
  rw [hsel]

/-- Witness for C1 at `v = 300`. -/
theorem C1_auto_selection_witness :
    autoSelect 300 = specPriority 300 ∧
    (specPriority 300).isSome = true ∧
    (∀ w : Writer, writeInt w 300 {} = writeIntChecked w 300 (specPriority 300)) ∧
    write ⟨List.replicate 4 0, 0, .BE⟩ (.num 300) {} =
      (⟨[0x01, 0x2C, 0x00, 0x00], 2, .BE⟩, none) :=
  C1_auto_selection 300 (by decide) (by decide)

/-- Claim C3 (amended): for every `v` in the 32-bit union range, a non-zero
explicit size fails with a size error unless it is 8, 16 or 32; a size of 0
is falsy and is treated as absent, triggering auto-selection; a valid
explicit size selects the method-table entry at that width that is unsigned
iff `v > 0` — so `v = 0` selects the signed entry, not the unsigned one. -/
theorem C3_explicit_size (w : Writer) (v s : Int)
    (hv : -0x80000000 ≤ v ∧ v ≤ 0xffffffff) :
    ((s ≠ 0 ∧ s ≠ 8 ∧ s ≠ 16 ∧ s ≠ 32) →
      writeInt w v { size := some s } = (w, some .size)) ∧
    (intTypeOf v { size := some 0 } = autoSelect v) ∧
    ((s = 8 ∨ s = 16 ∨ s = 32) →
      ∃ t, intTypeOf v { size := some s } = some t ∧
        t.signed = decide (v ≤ 0) ∧
        (8 * t.length : Int) = s ∧
        writeInt w v { size := some s } = writeIntChecked w v (some t)) := by
  have hrange : UNSIGNED_RANGE32.test v = true := by
    simp only [UNSIGNED_RANGE32, Range.test, between, Bool.and_eq_true,
      decide_eq_true_eq, ge_iff_le]
    omega
  refine ⟨fun hbad => ?_, by simp [intTypeOf], fun hs => ?_⟩
  · rw [writeInt]
    rw [if_neg (by simp [hrange])]
    show (if s ≠ 0 then _ else _) = _
    rw [if_pos hbad.1]
    rw [if_pos (by simp [INT_SIZES]; exact ⟨hbad.2.1, hbad.2.2.1, hbad.2.2.2⟩)]
  · have hs0 : s ≠ 0 := by rcases hs with h | h | h <;> simp [h]
    have hmem : s ∈ INT_SIZES := by
      rw [INT_SIZES]
      rcases hs with h | h | h <;> simp [h]
    have hty : intTypeOf v { size := some s } = bySize (decide (v > 0)) s := by
      simp only [intTypeOf]
      rw [if_pos hs0]
    have hwi : writeInt w v { size := some s } =
        writeIntChecked w v (bySize (decide (v > 0)) s) := by
      rw [writeInt, if_neg (by simp [hrange])]
      show (if s ≠ 0 then _ else _) = _
      rw [if_pos hs0, if_neg (by simp [hmem])]
    by_cases hpos : v > 0
    · have hd : decide (v > 0) = true := by simp [hpos]
      have hd2 : decide (v ≤ 0) = false := by simp; omega
      rcases hs with h | h | h <;> subst h
      · exact ⟨u8, by rw [hty, hd]; rfl, by simp [u8, hd2], by simp [u8], by rw [hwi, hd]; rfl⟩
      · exact ⟨u16, by rw [hty, hd]; rfl, by simp [u16, hd2], by simp [u16], by rw [hwi, hd]; rfl⟩
      · exact ⟨u32, by rw [hty, hd]; rfl, by simp [u32, hd2], by simp [u32], by rw [hwi, hd]; rfl⟩
    · have hd : decide (v > 0) = false := by simp; omega
      have hd2 : decide (v ≤ 0) = true := by simp; omega
      rcases hs with h | h | h <;> subst h
      · exact ⟨i8, by rw [hty, hd]; rfl, by simp [i8, hd2], by simp [i8], by rw [hwi, hd]; rfl⟩
      · exact ⟨i16, by rw [hty, hd]; rfl, by simp [i16, hd2], by simp [i16], by rw [hwi, hd]; rfl⟩
      · exact ⟨i32, by rw [hty, hd]; rfl, by simp [i32, hd2], by simp [i32], by rw [hwi, hd]; rfl⟩

/-- Witness for C3 at `v = -5`, `s = 16` on a fresh length-2 writer. -/
theorem C3_explicit_size_witness :
    ((((16 : Int) ≠ 0 ∧ (16 : Int) ≠ 8 ∧ (16 : Int) ≠ 16 ∧ (16 : Int) ≠ 32) →
      writeInt ⟨[0, 0], 0, .BE⟩ (-5) { size := some 16 } =
        (⟨[0, 0], 0, .BE⟩, some .size)) ∧
    (intTypeOf (-5) { size := some 0 } = autoSelect (-5)) ∧
    (((16 : Int) = 8 ∨ (16 : Int) = 16 ∨ (16 : Int) = 32) →
      ∃ t, intTypeOf (-5) { size := some 16 } = some t ∧
        t.signed = decide ((-5 : Int) ≤ 0) ∧
        (8 * t.length : Int) = 16 ∧
        writeInt ⟨[0, 0], 0, .BE⟩ (-5) { size := some 16 } =
          writeIntChecked ⟨[0, 0], 0, .BE⟩ (-5) (some t))) :=
  C3_explicit_size ⟨[0, 0], 0, .BE⟩ (-5) 16 (by decide)

/-- Claim C2 (amended): `writeInt`, sizeless `writeString`, and the
validated (non-`safe`) list path of `writeRaw` are all-or-nothing — on
failure the writer is exactly as before — and every successful write
decreases `remaining()` by exactly the number of bytes encoded (the
selected integer width; the text bytes plus the terminator byte when one is
written; the raw input length).  The guarantee does not extend to a raw
buffer write larger than the remaining capacity (including the sized
`writeString` path, which delegates to it), which fails only after the
Node copy primitive has clamped-copied the bytes that fit, nor to a `safe`
list write larger than the remaining capacity, which fails after writing
the bytes that fit and advancing the cursor (see the counterexample). -/
theorem C2_write_effects (w : Writer) :
    (∀ v opts, ((writeInt w v opts).2).isSome = true → (writeInt w v opts).1 = w) ∧
    (∀ v opts w', writeInt w v opts = (w', none) →
      ∃ k, (k = 1 ∨ k = 2 ∨ k = 4) ∧ w'.pos = w.pos + k ∧
        w'.buf.length = w.buf.length ∧ remaining w' = remaining w - k) ∧
    (∀ s opts, opts.size = none → ((writeString w s opts).2).isSome = true →
      (writeString w s opts).1 = w) ∧
    (∀ s opts w', opts.size = none → writeString w s opts = (w', none) →
      remaining w' = remaining w - s.length -
        (if opts.null ≠ some false ∧ (s.length : Int) < remaining w then 1 else 0)) ∧
    (∀ l opts, opts.safe = false → (writeRaw w (.array l) opts).1 = w) ∧
    (∀ b opts w', writeRaw w (.buffer b) opts = (w', none) →
      remaining w' = remaining w - b.length) ∧
    (∀ l opts w', opts.safe = true → writeRaw w (.array l) opts = (w', none) →
      remaining w' = remaining w - l.length) := by
  refine ⟨fun v opts => writeInt_fail_eq w v opts, ?_, ?_, ?_, ?_, ?_, ?_⟩
  · intro v opts w' h
    obtain ⟨t, ht, hlen, hw'⟩ := writeInt_ok_spec w v opts w' h
    refine ⟨t.length, intTypeOf_width v opts t ht, by rw [hw'], ?_, ?_⟩
    · rw [hw']
      exact writeBytesAt_length _ _ _
    · rw [hw', remaining, remaining]
      show ((writeBytesAt w.buf w.pos (encodeInt w.endianness t.length v)).length : Int) -
        ((w.pos + t.length : Nat) : Int) = _
      rw [writeBytesAt_length]
      push_cast
      ring
  · intro s opts hsz h
    rw [writeString_unsized w s opts hsz] at h ⊢
    by_cases hov : (s.length : Int) ≤ remaining w
    · rw [writeStringTail_ok w s _ hov] at h
      split at h <;> simp at h
    · rw [writeStringTail_overflow w s _ (by omega)]
  · intro s opts w' hsz h
    rw [writeString_unsized w s opts hsz] at h
    by_cases hov : (s.length : Int) ≤ remaining w
    · rw [writeStringTail_ok w s _ hov] at h
      simp only [stringOptsAfter_null_ne] at h
      split at h
      · next hc =>
        injection h with h1 _
        rw [← h1, if_pos hc, remaining, remaining]
        show ((writeBytesAt w.buf w.pos (s ++ NULL_BYTE)).length : Int) -
          ((w.pos + s.length + 1 : Nat) : Int) = _
        rw [writeBytesAt_length]
        push_cast
        ring
      · next hc =>
        injection h with h1 _
        rw [← h1, if_neg hc, remaining, remaining]
        show ((writeBytesAt w.buf w.pos s).length : Int) -
          ((w.pos + s.length : Nat) : Int) = _
        rw [writeBytesAt_length]
        push_cast
        ring
    · rw [writeStringTail_overflow w s _ (by omega)] at h
      simp at h
  · intro l opts hsafe
    rw [writeRaw_array_checked w l opts hsafe]
  · intro b opts w' h
    rw [writeRaw_buffer] at h
    obtain ⟨hfit, hw'⟩ := copyBuffer_ok_spec w b w' h
    rw [hw', remaining, remaining]
    show ((writeBytesAt w.buf w.pos b).length : Int) - ((w.pos + b.length : Nat) : Int) = _
    rw [writeBytesAt_length]
    push_cast
    ring
  · intro l opts w' hsafe h
    rw [writeRaw_array_safe w l opts hsafe] at h
    injection h with h1 h2
    have hok := safeLoop_ok l w.buf w.pos h2
    rw [← h1, remaining, remaining]
    show (((safeLoop w.buf w.pos l).1).length : Int) -
      (((safeLoop w.buf w.pos l).2.1 : Nat) : Int) = _
    rw [hok.2, hok.1]
    push_cast
    ring

/-- Witness for C2 on a fresh length-2 writer. -/
theorem C2_write_effects_witness :
    (∀ v opts, ((writeInt ⟨[0, 0], 0, .BE⟩ v opts).2).isSome = true →
      (writeInt ⟨[0, 0], 0, .BE⟩ v opts).1 = ⟨[0, 0], 0, .BE⟩) ∧
    (∀ v opts w', writeInt ⟨[0, 0], 0, .BE⟩ v opts = (w', none) →
      ∃ k, (k = 1 ∨ k = 2 ∨ k = 4) ∧ w'.pos = Writer.pos ⟨[0, 0], 0, .BE⟩ + k ∧
        w'.buf.length = (Writer.buf ⟨[0, 0], 0, .BE⟩).length ∧
        remaining w' = remaining ⟨[0, 0], 0, .BE⟩ - k) ∧
    (∀ s opts, opts.size = none →
      ((writeString ⟨[0, 0], 0, .BE⟩ s opts).2).isSome = true →
      (writeString ⟨[0, 0], 0, .BE⟩ s opts).1 = ⟨[0, 0], 0, .BE⟩) ∧
    (∀ s opts w', opts.size = none → writeString ⟨[0, 0], 0, .BE⟩ s opts = (w', none) →
      remaining w' = remaining ⟨[0, 0], 0, .BE⟩ - s.length -
        (if opts.null ≠ some false ∧ (s.length : Int) < remaining ⟨[0, 0], 0, .BE⟩
          then 1 else 0)) ∧
    (∀ l opts, opts.safe = false →
      (writeRaw ⟨[0, 0], 0, .BE⟩ (.array l) opts).1 = ⟨[0, 0], 0, .BE⟩) ∧
    (∀ b opts w', writeRaw ⟨[0, 0], 0, .BE⟩ (.buffer b) opts = (w', none) →
      remaining w' = remaining ⟨[0, 0], 0, .BE⟩ - b.length) ∧
    (∀ l opts w', opts.safe = true →
      writeRaw ⟨[0, 0], 0, .BE⟩ (.array l) opts = (w', none) →
      remaining w' = remaining ⟨[0, 0], 0, .BE⟩ - l.length) :=
  C2_write_effects ⟨[0, 0], 0, .BE⟩

/-- Claim C4 (amended): `full()` is true iff `remaining() == 0`.  On a full
writer every non-zero-length write fails without writing a byte, but not
always with an OverflowError: `writeInt` fails leaving the writer unchanged
(with an OverflowError for any in-range value when no size option is
given); a non-empty string without explicit size fails with an
OverflowError, unchanged; a non-empty byte buffer fails with the Node copy
bounds error — or a RangeError when the writer has length 0 — unchanged; a
list without `safe: true` fails unchanged; and a non-empty `safe: true`
list write fails with the bytes unchanged but the cursor advanced by one. -/
theorem C4_full_writer (w : Writer) (hfull : remaining w = 0) :
    (∀ u : Writer, full u = true ↔ remaining u = 0) ∧
    (∀ v opts, ((writeInt w v opts).2).isSome = true ∧ (writeInt w v opts).1 = w) ∧
    (∀ v : Int, -0x80000000 ≤ v → v ≤ 0xffffffff →
      writeInt w v {} = (w, some .overflow)) ∧
    (∀ s opts, s ≠ [] → opts.size = none →
      writeString w s opts = (w, some .overflow)) ∧
    (∀ b opts, b ≠ [] → ((writeRaw w (.buffer b) opts).2).isSome = true ∧
      (writeRaw w (.buffer b) opts).1 = w ∧
      (0 < w.buf.length → writeRaw w (.buffer b) opts = (w, some .bufferBounds))) ∧
    (∀ l opts, opts.safe = false → ((writeRaw w (.array l) opts).2).isSome = true ∧
      (writeRaw w (.array l) opts).1 = w) ∧
    (∀ l opts, opts.safe = true → l ≠ [] →
      ((writeRaw w (.array l) opts).2).isSome = true ∧
      (writeRaw w (.array l) opts).1.buf = w.buf ∧
      (writeRaw w (.array l) opts).1.pos = w.pos + 1) := by
  have hpl : w.pos = w.buf.length := by
    rw [remaining] at hfull
    omega
  refine ⟨fun u => by simp [full], ?_, ?_, ?_, ?_, ?_, ?_⟩
  · intro v opts
    have hsome : ((writeInt w v opts).2).isSome = true := by
      rcases hres : (writeInt w v opts).2 with _ | e
      · exfalso
        have hx : writeInt w v opts = ((writeInt w v opts).1, none) := by
          rw [← hres]
        obtain ⟨t, ht, hlen, _⟩ := writeInt_ok_spec w v opts _ hx
        have hwid := intTypeOf_width v opts t ht
        rw [hfull] at hlen
        rcases hwid with hk | hk | hk <;> rw [hk] at hlen <;> omega
      · rfl
    exact ⟨hsome, writeInt_fail_eq w v opts hsome⟩
  · intro v h1 h2
    have hrange : UNSIGNED_RANGE32.test v = true := by
      simp only [UNSIGNED_RANGE32, Range.test, between, Bool.and_eq_true,
        decide_eq_true_eq, ge_iff_le]
      omega
    rw [writeInt, if_neg (by simp [hrange])]
    show writeIntChecked w v (autoSelect v) = (w, some .overflow)
    obtain ⟨t, hts, htl⟩ := autoSelect_total v h1 h2
    rw [hts]
    show (if (t.length : Int) > remaining w then ((w, some JsErr.overflow) : Writer × Option JsErr) else _) = (w, some .overflow)
    rw [if_pos (by rw [hfull]; omega)]
  · intro s opts hne hsz
    rw [writeString_unsized w s opts hsz]
    rw [writeStringTail_overflow w s _ (by rw [hfull]; have := List.length_pos.mpr hne; omega)]
  · intro b opts hne
    rw [writeRaw_buffer]
    have hb : 0 < b.length := List.length_pos.mpr hne
    by_cases h0 : w.buf.length = 0
    · have hcb : copyBuffer w b = (w, some .range) := by
        rw [copyBuffer, if_pos (Or.inr h0), move_exceeds w b.length (by omega)]
      exact ⟨by rw [hcb]; rfl, by rw [hcb], fun hc => absurd h0 (by omega)⟩
    · have hcb : copyBuffer w b = (w, some .bufferBounds) := by
        rw [copyBuffer, if_neg (by push_neg; exact ⟨by omega, h0⟩), if_pos (by omega)]
      exact ⟨by rw [hcb]; rfl, by rw [hcb], fun _ => hcb⟩
  · intro l opts hsafe
    rw [writeRaw_array_checked w l opts hsafe]
    exact ⟨rfl, rfl⟩
  · intro l opts hsafe hne
    rw [writeRaw_array_safe w l opts hsafe]
    have hsl : (safeLoop w.buf w.pos l).1 = w.buf ∧
        (safeLoop w.buf w.pos l).2.1 = w.pos + 1 ∧
        ((safeLoop w.buf w.pos l).2.2).isSome = true := by
      match l, hne with
      | [], h => exact absurd rfl h
      | .num n :: rest, _ =>
        rw [safeLoop, if_pos (by omega)]
        exact ⟨rfl, rfl, rfl⟩
      | .nonNum :: rest, _ =>
        rw [safeLoop]
        exact ⟨rfl, rfl, rfl⟩
    exact ⟨hsl.2.2, hsl.1, hsl.2.1⟩

/-- Witness for C4 on a full length-1 writer (cursor at 1). -/
theorem C4_full_writer_witness :
    remaining ⟨[9], 1, .BE⟩ = 0 ∧
    ((∀ u : Writer, full u = true ↔ remaining u = 0) ∧
    (∀ v opts, ((writeInt ⟨[9], 1, .BE⟩ v opts).2).isSome = true ∧
      (writeInt ⟨[9], 1, .BE⟩ v opts).1 = ⟨[9], 1, .BE⟩) ∧
    (∀ v : Int, -0x80000000 ≤ v → v ≤ 0xffffffff →
      writeInt ⟨[9], 1, .BE⟩ v {} = (⟨[9], 1, .BE⟩, some .overflow)) ∧
    (∀ s opts, s ≠ [] → opts.size = none →
      writeString ⟨[9], 1, .BE⟩ s opts = (⟨[9], 1, .BE⟩, some .overflow)) ∧
    (∀ b opts, b ≠ [] → ((writeRaw ⟨[9], 1, .BE⟩ (.buffer b) opts).2).isSome = true ∧
      (writeRaw ⟨[9], 1, .BE⟩ (.buffer b) opts).1 = ⟨[9], 1, .BE⟩ ∧
      (0 < (Writer.buf ⟨[9], 1, .BE⟩).length →
        writeRaw ⟨[9], 1, .BE⟩ (.buffer b) opts = (⟨[9], 1, .BE⟩, some .bufferBounds))) ∧
    (∀ l opts, opts.safe = false →
      ((writeRaw ⟨[9], 1, .BE⟩ (.array l) opts).2).isSome = true ∧
      (writeRaw ⟨[9], 1, .BE⟩ (.array l) opts).1 = ⟨[9], 1, .BE⟩) ∧
    (∀ l opts, opts.safe = true → l ≠ [] →
      ((writeRaw ⟨[9], 1, .BE⟩ (.array l) opts).2).isSome = true ∧
      (writeRaw ⟨[9], 1, .BE⟩ (.array l) opts).1.buf = Writer.buf ⟨[9], 1, .BE⟩ ∧
      (writeRaw ⟨[9], 1, .BE⟩ (.array l) opts).1.pos = Writer.pos ⟨[9], 1, .BE⟩ + 1)) :=
  ⟨by decide, C4_full_writer ⟨[9], 1, .BE⟩ (by decide)⟩

/-- Claim C7: for every string write without an explicit size, if the
encoded byte length exceeds `remaining()` the write fails with an
OverflowError before writing anything; otherwise the raw bytes are written
at the cursor and then, unless `null` is explicitly `false`, one additional
zero byte is written only if capacity remains (the terminator is silently
omitted, without error, when the buffer is exactly full); on a fresh
length-5 writer, `writeString("hi")` with defaults writes `h`, `i`, `0x00`
leaving cursor 3 (so `remaining() == 2`). -/
theorem C7_writeString_unsized (w : Writer) (s : List Nat) (opts : WriteOpts)
    (hsz : opts.size = none) :
    ((remaining w < (s.length : Int)) → writeString w s opts = (w, some .overflow)) ∧
    ((s.length : Int) ≤ remaining w →
      ∃ w', writeString w s opts = (w', none) ∧
        w'.pos = w.pos + s.length +
          (if opts.null ≠ some false ∧ (s.length : Int) < remaining w then 1 else 0) ∧
        w'.buf.length = w.buf.length ∧
        (∀ j, j < s.length → w'.buf.getD (w.pos + j) 0 = s.getD j 0) ∧
        ((opts.null ≠ some false ∧ (s.length : Int) < remaining w) →
          w'.buf.getD (w.pos + s.length) 0 = 0) ∧
        (∀ j, j < w.pos ∨ w.pos + s.length +
            (if opts.null ≠ some false ∧ (s.length : Int) < remaining w then 1 else 0) ≤ j →
          w'.buf.getD j 0 = w.buf.getD j 0)) ∧
    writeString ⟨List.replicate 5 0, 0, .BE⟩ [104, 105] {} =
      (⟨[104, 105, 0, 0, 0], 3, .BE⟩, none) := by
  refine ⟨fun hov => ?_, fun hle => ?_, by decide⟩
  · rw [writeString_unsized w s opts hsz, writeStringTail_overflow w s _ hov]
  · rw [writeString_unsized w s opts hsz, writeStringTail_ok w s _ hle]
    simp only [stringOptsAfter_null_ne]
    have hfit : w.pos + s.length ≤ w.buf.length := by
      rw [remaining] at hle
      omega
    by_cases hc : opts.null ≠ some false ∧ (s.length : Int) < remaining w
    · rw [if_pos hc, if_pos hc]
      have hfit1 : w.pos + s.length + 1 ≤ w.buf.length := by
        have := hc.2
        rw [remaining] at this
        omega
      refine ⟨_, rfl, rfl, writeBytesAt_length _ _ _, ?_, ?_, ?_⟩
      · intro j hj
        show (writeBytesAt w.buf w.pos (s ++ NULL_BYTE)).getD (w.pos + j) 0 = s.getD j 0
        rw [writeBytesAt_getD]
        rw [if_pos (by simp only [List.length_append, NULL_BYTE, List.length_cons,
          List.length_nil]; omega)]
        have hj' : w.pos + j - w.pos = j := by omega
        rw [hj']
        simp [List.getD_eq_getElem?_getD, List.getElem?_append_left hj]
      · intro _
        show (writeBytesAt w.buf w.pos (s ++ NULL_BYTE)).getD (w.pos + s.length) 0 = 0
        rw [writeBytesAt_getD]
        rw [if_pos (by simp only [List.length_append, NULL_BYTE, List.length_cons,
          List.length_nil]; omega)]
        have hj' : w.pos + s.length - w.pos = s.length := by omega
        rw [hj']
        simp [List.getD_eq_getElem?_getD, List.getElem?_append_right (Nat.le_refl _),
          NULL_BYTE]
      · intro j hj
        show (writeBytesAt w.buf w.pos (s ++ NULL_BYTE)).getD j 0 = w.buf.getD j 0
        rw [writeBytesAt_getD]
        rw [if_neg (by simp only [List.length_append, NULL_BYTE, List.length_cons,
          List.length_nil]; omega)]
    · rw [if_neg hc, if_neg hc]
      refine ⟨_, rfl, rfl, writeBytesAt_length _ _ _, ?_, fun hcc => absurd hcc hc, ?_⟩
      · intro j hj
        show (writeBytesAt w.buf w.pos s).getD (w.pos + j) 0 = s.getD j 0
        rw [writeBytesAt_getD]
        rw [if_pos (by omega)]
        have hj' : w.pos + j - w.pos = j := by omega
        rw [hj']
      · intro j hj
        show (writeBytesAt w.buf w.pos s).getD j 0 = w.buf.getD j 0
        rw [writeBytesAt_getD]
        rw [if_neg (by omega)]

/-- Witness for C7 on the spec's length-5 example. -/
theorem C7_writeString_unsized_witness :
    ((remaining ⟨List.replicate 5 0, 0, .BE⟩ < (([104, 105] : List Nat).length : Int)) →
      writeString ⟨List.replicate 5 0, 0, .BE⟩ [104, 105] {} =
        (⟨List.replicate 5 0, 0, .BE⟩, some .overflow)) ∧
    ((([104, 105] : List Nat).length : Int) ≤ remaining ⟨List.replicate 5 0, 0, .BE⟩ →
      ∃ w', writeString ⟨List.replicate 5 0, 0, .BE⟩ [104, 105] {} = (w', none) ∧
        w'.pos = Writer.pos ⟨List.replicate 5 0, 0, .BE⟩ + ([104, 105] : List Nat).length +
          (if ({} : WriteOpts).null ≠ some false ∧
            ((([104, 105] : List Nat).length : Int) < remaining ⟨List.replicate 5 0, 0, .BE⟩)
            then 1 else 0) ∧
        w'.buf.length = (Writer.buf ⟨List.replicate 5 0, 0, .BE⟩).length ∧
        (∀ j, j < ([104, 105] : List Nat).length →
          w'.buf.getD (Writer.pos ⟨List.replicate 5 0, 0, .BE⟩ + j) 0 =
            ([104, 105] : List Nat).getD j 0) ∧
        ((({} : WriteOpts).null ≠ some false ∧
            ((([104, 105] : List Nat).length : Int) < remaining ⟨List.replicate 5 0, 0, .BE⟩)) →
          w'.buf.getD (Writer.pos ⟨List.replicate 5 0, 0, .BE⟩ +
            ([104, 105] : List Nat).length) 0 = 0) ∧
        (∀ j, j < Writer.pos ⟨List.replicate 5 0, 0, .BE⟩ ∨
            Writer.pos ⟨List.replicate 5 0, 0, .BE⟩ + ([104, 105] : List Nat).length +
              (if ({} : WriteOpts).null ≠ some false ∧
                ((([104, 105] : List Nat).length : Int) <
                  remaining ⟨List.replicate 5 0, 0, .BE⟩) then 1 else 0) ≤ j →
          w'.buf.getD j 0 = (Writer.buf ⟨List.replicate 5 0, 0, .BE⟩).getD j 0)) ∧
    writeString ⟨List.replicate 5 0, 0, .BE⟩ [104, 105] {} =
      (⟨[104, 105, 0, 0, 0], 3, .BE⟩, none) :=
  C7_writeString_unsized ⟨List.replicate 5 0, 0, .BE⟩ [104, 105] {} rfl

/-- Claim C6 (amended): for every string write with an explicit non-zero
size `N` such that the `N` bytes fit at the cursor, exactly `N` bytes are
written: the first `N` text bytes when the text is longer (silent
truncation), the text bytes followed by zero padding up to `N` bytes
otherwise; the cursor advances by exactly `N`, all other bytes are
untouched, and the `null` option has no effect on this path.  (A size of 0
is falsy and is treated as absent, and a size exceeding the remaining
capacity fails after writing only the bytes that fit — see the
counterexample.) -/
theorem C6_writeString_sized (w : Writer) (s : List Nat) (sz : Nat) (opts : WriteOpts)
    (hsz : opts.size = some (sz : Int)) (h0 : 0 < sz)
    (hfit : w.pos + sz ≤ w.buf.length) :
    (∃ w', writeString w s opts = (w', none) ∧
      w'.pos = w.pos + sz ∧
      w'.buf.length = w.buf.length ∧
      (∀ j, j < sz → w'.buf.getD (w.pos + j) 0 =
        (s ++ List.replicate (sz - s.length) 0).getD j 0) ∧
      (∀ j, j < w.pos ∨ w.pos + sz ≤ j → w'.buf.getD j 0 = w.buf.getD j 0)) ∧
    writeString w s opts = writeString w s { opts with null := none } := by
  have h0' : (sz : Int) ≠ 0 := by omega
  have hnul : writeString w s opts = writeString w s { opts with null := none } := by
    rw [writeString_sized w s opts (sz : Int) hsz h0',
      writeString_sized w s { opts with null := none } (sz : Int) (by simpa using hsz) h0']
  refine ⟨?_, hnul⟩
  rw [writeString_sized w s opts (sz : Int) hsz h0']
  by_cases hlong : (s.length : Int) > (sz : Int)
  · rw [if_pos hlong]
    have hslice : bufSlice0 s (sz : Int) = s.take sz := by
      rw [bufSlice0, if_neg (by omega)]
      congr 1
      simp only [Int.toNat_natCast]
      exact Nat.min_eq_left (by omega)
    rw [hslice]
    have hlen : (s.take sz).length = sz := by
      simp only [List.length_take]
      omega
    have hrep0 : sz - s.length = 0 := by omega
    rw [copyBuffer_fits w _ (by rw [hlen]; exact hfit)]
    refine ⟨_, rfl, ?_, writeBytesAt_length _ _ _, ?_, ?_⟩
    · show w.pos + (s.take sz).length = w.pos + sz
      rw [hlen]
    · intro j hj
      show (writeBytesAt w.buf w.pos (s.take sz)).getD (w.pos + j) 0 = _
      rw [writeBytesAt_getD, if_pos (by rw [hlen]; omega)]
      have hj' : w.pos + j - w.pos = j := by omega
      rw [hj', hrep0]
      simp only [List.replicate_zero, List.append_nil]
      simp [List.getD_eq_getElem?_getD, List.getElem?_take_of_lt hj]
    · intro j hj
      show (writeBytesAt w.buf w.pos (s.take sz)).getD j 0 = w.buf.getD j 0
      rw [writeBytesAt_getD, if_neg (by rw [hlen]; omega)]
  · rw [if_neg hlong]
    have hrep : ((sz : Int) - (s.length : Int)).toNat = sz - s.length := by omega
    rw [hrep]
    have hplen : (s ++ List.replicate (sz - s.length) 0).length = sz := by
      simp only [List.length_append, List.length_replicate]
      omega
    rw [copyBuffer_fits w _ (by rw [hplen]; exact hfit)]
    refine ⟨_, rfl, ?_, writeBytesAt_length _ _ _, ?_, ?_⟩
    · show w.pos + (s ++ List.replicate (sz - s.length) 0).length = w.pos + sz
      rw [hplen]
    · intro j hj
      show (writeBytesAt w.buf w.pos (s ++ List.replicate (sz - s.length) 0)).getD
        (w.pos + j) 0 = _
      rw [writeBytesAt_getD, if_pos (by rw [hplen]; omega)]
      have hj' : w.pos + j - w.pos = j := by omega
      rw [hj']
    · intro j hj
      show (writeBytesAt w.buf w.pos (s ++ List.replicate (sz - s.length) 0)).getD j 0 =
        w.buf.getD j 0
      rw [writeBytesAt_getD, if_neg (by rw [hplen]; omega)]

/-- Witness for C6: `writeString("hi", {size: 3})` on a fresh length-3 writer. -/
theorem C6_writeString_sized_witness :
    ((∃ w', writeString ⟨[0, 0, 0], 0, .BE⟩ [104, 105] { size := some ((3 : Nat) : Int) } =
        (w', none) ∧
      w'.pos = Writer.pos ⟨[0, 0, 0], 0, .BE⟩ + 3 ∧
      w'.buf.length = (Writer.buf ⟨[0, 0, 0], 0, .BE⟩).length ∧
      (∀ j, j < 3 → w'.buf.getD (Writer.pos ⟨[0, 0, 0], 0, .BE⟩ + j) 0 =
        (([104, 105] : List Nat) ++
          List.replicate (3 - ([104, 105] : List Nat).length) 0).getD j 0) ∧
      (∀ j, j < Writer.pos ⟨[0, 0, 0], 0, .BE⟩ ∨
          Writer.pos ⟨[0, 0, 0], 0, .BE⟩ + 3 ≤ j →
        w'.buf.getD j 0 = (Writer.buf ⟨[0, 0, 0], 0, .BE⟩).getD j 0)) ∧
    writeString ⟨[0, 0, 0], 0, .BE⟩ [104, 105] { size := some ((3 : Nat) : Int) } =
      writeString ⟨[0, 0, 0], 0, .BE⟩ [104, 105]
        { ({ size := some ((3 : Nat) : Int) } : WriteOpts) with null := none }) :=
  C6_writeString_sized ⟨[0, 0, 0], 0, .BE⟩ [104, 105] 3
    { size := some ((3 : Nat) : Int) } rfl (by decide) (by decide)

theorem writeString_size_zero (w : Writer) (s : List Nat) (opts : WriteOpts)
    (h : opts.size = some 0) :
    writeString w s opts = writeStringTail w s (stringOptsAfter opts) := by
  rw [writeString, stringOptsAfter_size, h]
  show (if (0 : Int) ≠ 0 then _ else _) = _
  rw [if_neg (by simp)]

theorem writeStringTail_pos_le (w : Writer) (s : List Nat) (opts : WriteOpts)
    (hw : w.pos ≤ w.buf.length) :
    (writeStringTail w s opts).1.pos ≤ (writeStringTail w s opts).1.buf.length := by
  by_cases hov : (s.length : Int) ≤ remaining w
  · rw [writeStringTail_ok w s opts hov]
    split
    · next hc =>
      show w.pos + s.length + 1 ≤ (writeBytesAt w.buf w.pos (s ++ NULL_BYTE)).length
      rw [writeBytesAt_length]
      have := hc.2
      rw [remaining] at this
      omega
    · show w.pos + s.length ≤ (writeBytesAt w.buf w.pos s).length
      rw [writeBytesAt_length]
      rw [remaining] at hov
      omega
  · rw [writeStringTail_overflow w s opts (by omega)]
    exact hw

/-- Claim C9 (amended): `position(p)` as a setter fails with a RangeError
unless `0 <= p <= length`, leaving the cursor unchanged on failure; the
invariant `0 <= cursor <= length` is preserved by `writeInt`,
`writeString`, buffer `writeRaw`, non-`safe` list `writeRaw` and `reset` —
including all their failure paths — but NOT by a failing `writeRaw` with
`safe: true`, which can leave the cursor at `length + 1` when the list
exceeds the remaining capacity (see the counterexample); a `safe` write
whose list fits preserves the invariant. -/
theorem C9_cursor_invariant (w : Writer) (hw : w.pos ≤ w.buf.length) :
    (∀ p : Int, ((p < 0 ∨ (w.buf.length : Int) < p) → position w p = (w, some .range)) ∧
      (0 ≤ p → p ≤ (w.buf.length : Int) → position w p = ({ w with pos := p.toNat }, none))) ∧
    (∀ v opts, (writeInt w v opts).1.pos ≤ (writeInt w v opts).1.buf.length) ∧
    (∀ s opts, (writeString w s opts).1.pos ≤ (writeString w s opts).1.buf.length) ∧
    (∀ b opts, (writeRaw w (.buffer b) opts).1.pos ≤
      (writeRaw w (.buffer b) opts).1.buf.length) ∧
    (∀ l opts, opts.safe = false → (writeRaw w (.array l) opts).1 = w) ∧
    (∀ l opts, opts.safe = true →
      (writeRaw w (.array l) opts).1.pos ≤ (writeRaw w (.array l) opts).1.buf.length + 1 ∧
      (w.pos + l.length ≤ w.buf.length →
        (writeRaw w (.array l) opts).1.pos ≤ (writeRaw w (.array l) opts).1.buf.length)) ∧
    (reset w).pos ≤ (reset w).buf.length := by
  refine ⟨?_, ?_, ?_, ?_, ?_, ?_, by simp [reset]⟩
  · intro p
    constructor
    · intro hbad
      rw [position, if_pos (by simp only [Bool.or_eq_true, decide_eq_true_eq]; omega)]
    · intro hp1 hp2
      rw [position, if_neg (by simp only [Bool.or_eq_true, decide_eq_true_eq]; omega)]
  · intro v opts
    rcases hres : (writeInt w v opts).2 with _ | e
    · have hx : writeInt w v opts = ((writeInt w v opts).1, none) := by rw [← hres]
      obtain ⟨t, ht, hlen, hw'⟩ := writeInt_ok_spec w v opts _ hx
      rw [hw']
      show w.pos + t.length ≤ (writeBytesAt w.buf w.pos (encodeInt w.endianness t.length v)).length
      rw [writeBytesAt_length]
      rw [remaining] at hlen
      omega
    · rw [writeInt_fail_eq w v opts (by rw [hres]; rfl)]
      exact hw
  · intro s opts
    rcases hsz : opts.size with _ | sz
    · rw [writeString_unsized w s opts hsz]
      exact writeStringTail_pos_le w s _ hw
    · by_cases h0 : sz = 0
      · subst h0
        rw [writeString_size_zero w s opts hsz]
        exact writeStringTail_pos_le w s _ hw
      · rw [writeString_sized w s opts sz hsz h0]
        split
        · exact copyBuffer_pos_le w _ hw
        · exact copyBuffer_pos_le w _ hw
  · intro b opts
    rw [writeRaw_buffer]
    exact copyBuffer_pos_le w b hw
  · intro l opts hsafe
    rw [writeRaw_array_checked w l opts hsafe]
  · intro l opts hsafe
    rw [writeRaw_array_safe w l opts hsafe]
    obtain ⟨hb, hlen⟩ := safeLoop_pos_bound l w.buf w.pos hw
    constructor
    · show (safeLoop w.buf w.pos l).2.1 ≤ (safeLoop w.buf w.pos l).1.length + 1
      rw [hlen]
      rcases hb with h | h <;> omega
    · intro hfit
      show (safeLoop w.buf w.pos l).2.1 ≤ (safeLoop w.buf w.pos l).1.length
      rw [hlen]
      have := safeLoop_pos_le_add l w.buf w.pos
      omega

/-- Witness for C9 on a fresh length-2 writer. -/
theorem C9_cursor_invariant_witness :
    (∀ p : Int, ((p < 0 ∨ ((Writer.buf ⟨[0, 0], 0, .BE⟩).length : Int) < p) →
        position ⟨[0, 0], 0, .BE⟩ p = (⟨[0, 0], 0, .BE⟩, some .range)) ∧
      (0 ≤ p → p ≤ ((Writer.buf ⟨[0, 0], 0, .BE⟩).length : Int) →
        position ⟨[0, 0], 0, .BE⟩ p = (⟨[0, 0], p.toNat, .BE⟩, none))) ∧
    (∀ v opts, (writeInt ⟨[0, 0], 0, .BE⟩ v opts).1.pos ≤
      (writeInt ⟨[0, 0], 0, .BE⟩ v opts).1.buf.length) ∧
    (∀ s opts, (writeString ⟨[0, 0], 0, .BE⟩ s opts).1.pos ≤
      (writeString ⟨[0, 0], 0, .BE⟩ s opts).1.buf.length) ∧
    (∀ b opts, (writeRaw ⟨[0, 0], 0, .BE⟩ (.buffer b) opts).1.pos ≤
      (writeRaw ⟨[0, 0], 0, .BE⟩ (.buffer b) opts).1.buf.length) ∧
    (∀ l opts, opts.safe = false →
      (writeRaw ⟨[0, 0], 0, .BE⟩ (.array l) opts).1 = ⟨[0, 0], 0, .BE⟩) ∧
    (∀ l opts, opts.safe = true →
      (writeRaw ⟨[0, 0], 0, .BE⟩ (.array l) opts).1.pos ≤
        (writeRaw ⟨[0, 0], 0, .BE⟩ (.array l) opts).1.buf.length + 1 ∧
      (Writer.pos ⟨[0, 0], 0, .BE⟩ + l.length ≤ (Writer.buf ⟨[0, 0], 0, .BE⟩).length →
        (writeRaw ⟨[0, 0], 0, .BE⟩ (.array l) opts).1.pos ≤
          (writeRaw ⟨[0, 0], 0, .BE⟩ (.array l) opts).1.buf.length)) ∧
    (reset ⟨[0, 0], 0, .BE⟩).pos ≤ (reset ⟨[0, 0], 0, .BE⟩).buf.length :=
  C9_cursor_invariant ⟨[0, 0], 0, .BE⟩ (by decide)

end BitWriter
